import Mathlib

/-!
Formal model of the AWS account resource audit script (`src/aws-resource.py`).

The script scans a list of AWS accounts: for each account it discovers the
enabled regions, fans a fixed registry of resource checks out into one task
per (check, region) pair, runs the tasks on a thread pool, collects the
warning strings the tasks return, and prints them deduplicated and sorted.

Python strings are modelled by Lean `String` (sequences of characters);
operations the Lean kernel cannot evaluate on `String` (comparison, strip,
split, substring search) are defined here over the underlying character
lists, following Python semantics (code-point lexicographic order, etc.).
-/

namespace AwsResource

/-! ### Python string primitives -/

/-- Lexicographic comparison of character lists by code point: the order Python
uses when comparing strings (and hence what `sorted` on a list of `str` uses). -/
def charListLe : List Char → List Char → Bool
  | [], _ => true
  | _ :: _, [] => false
  | a :: as, b :: bs => if a < b then true else if b < a then false else charListLe as bs

/-- Python string comparison `a <= b`, via the character lists. -/
def strLe (a b : String) : Bool := charListLe a.toList b.toList

theorem charListLe_cons (a b : Char) (as bs : List Char) :
    charListLe (a :: as) (b :: bs) = true ↔ a < b ∨ (a = b ∧ charListLe as bs = true) := by
  by_cases h1 : a < b
  · simp [charListLe, h1]
  · by_cases h2 : b < a
    · have hne : a ≠ b := fun he => absurd (he ▸ h2) (lt_irrefl a)
      simp [charListLe, h1, h2, hne]
    · have he : a = b := le_antisymm (not_lt.mp h2) (not_lt.mp h1)
      simp [charListLe, h1, h2, he]

theorem charListLe_total : ∀ as bs : List Char, charListLe as bs = true ∨ charListLe bs as = true
  | [], _ => Or.inl rfl
  | _ :: _, [] => Or.inr rfl
  | a :: as, b :: bs => by
    rcases lt_trichotomy a b with h | h | h
    · exact Or.inl ((charListLe_cons a b as bs).mpr (Or.inl h))
    · rcases charListLe_total as bs with hr | hr
      · exact Or.inl ((charListLe_cons a b as bs).mpr (Or.inr ⟨h, hr⟩))
      · exact Or.inr ((charListLe_cons b a bs as).mpr (Or.inr ⟨h.symm, hr⟩))
    · exact Or.inr ((charListLe_cons b a bs as).mpr (Or.inl h))

theorem charListLe_trans : ∀ as bs cs : List Char, charListLe as bs = true →
    charListLe bs cs = true → charListLe as cs = true
  | [], _, _, _, _ => rfl
  | _ :: _, [], _, h, _ => by simp [charListLe] at h
  | _ :: _, _ :: _, [], _, h => by simp [charListLe] at h
  | a :: as, b :: bs, c :: cs, h1, h2 => by
    rcases (charListLe_cons a b as bs).mp h1 with hab | ⟨hab, hr1⟩ <;>
      rcases (charListLe_cons b c bs cs).mp h2 with hbc | ⟨hbc, hr2⟩
    · exact (charListLe_cons a c as cs).mpr (Or.inl (lt_trans hab hbc))
    · exact (charListLe_cons a c as cs).mpr (Or.inl (hbc ▸ hab))
    · exact (charListLe_cons a c as cs).mpr (Or.inl (hab ▸ hbc))
    · exact (charListLe_cons a c as cs).mpr
        (Or.inr ⟨hab.trans hbc, charListLe_trans as bs cs hr1 hr2⟩)

theorem charListLe_antisymm : ∀ as bs : List Char, charListLe as bs = true →
    charListLe bs as = true → as = bs
  | [], [], _, _ => rfl
  | [], _ :: _, _, h => by simp [charListLe] at h
  | _ :: _, [], h, _ => by simp [charListLe] at h
  | a :: as, b :: bs, h1, h2 => by
    rcases (charListLe_cons a b as bs).mp h1 with hab | ⟨hab, hr1⟩ <;>
      rcases (charListLe_cons b a bs as).mp h2 with hba | ⟨hba, hr2⟩
    · exact absurd hba (lt_asymm hab)
    · exact absurd hab (hba ▸ lt_irrefl b)
    · exact absurd hba (hab ▸ lt_irrefl a)
    · rw [hab, charListLe_antisymm as bs hr1 hr2]

theorem strLe_total (a b : String) : strLe a b = true ∨ strLe b a = true :=
  charListLe_total a.toList b.toList

theorem strLe_trans (a b c : String) (h1 : strLe a b = true) (h2 : strLe b c = true) :
    strLe a c = true :=
  charListLe_trans a.toList b.toList c.toList h1 h2

theorem strLe_antisymm (a b : String) (h1 : strLe a b = true) (h2 : strLe b a = true) :
    a = b := by
  have h := charListLe_antisymm a.toList b.toList h1 h2
  cases a; cases b; exact congrArg String.mk h

instance : IsTotal String (fun a b => strLe a b = true) := ⟨strLe_total⟩

instance : IsTrans String (fun a b => strLe a b = true) := ⟨strLe_trans⟩

instance : IsAntisymm String (fun a b => strLe a b = true) := ⟨strLe_antisymm⟩

/-! ### Result aggregation (check_aws_account, lines 231-235) -/

/-- Final report assembly in `check_aws_account`:
`for warning in sorted(list(set(warnings_found)))`. Python's `set` collapses
exact-duplicate strings (modelled by `dedup`) and `sorted` orders the distinct
strings lexicographically (modelled by insertion sort under `strLe`). -/
def aggregate_report (warnings_found : List String) : List String :=
  List.insertionSort (fun a b => strLe a b = true) warnings_found.dedup

theorem aggregate_report_mem (l : List String) (s : String) :
    s ∈ aggregate_report l ↔ s ∈ l :=
  ((List.perm_insertionSort _ l.dedup).mem_iff).trans List.mem_dedup

/-- C2: for every multiset of finding strings produced by an account's tasks,
the final report is the lexicographically sorted sequence of its distinct
strings; a string produced by two or more tasks appears exactly once, and the
report is identical for every arrival (completion) order of the tasks. -/
theorem aggregate_report_spec (l l' : List String) (h : l.Perm l') :
    aggregate_report l = aggregate_report l'
    ∧ (aggregate_report l).Sorted (fun a b => strLe a b = true)
    ∧ (aggregate_report l).Nodup
    ∧ (∀ s : String, s ∈ aggregate_report l ↔ s ∈ l)
    ∧ (∀ s : String, s ∈ l → (aggregate_report l).count s = 1) := by
  have hnodup : (aggregate_report l).Nodup :=
    (List.perm_insertionSort _ l.dedup).nodup_iff.mpr (List.nodup_dedup l)
  have hmem : ∀ s : String, s ∈ aggregate_report l ↔ s ∈ l := fun s =>
    aggregate_report_mem l s
  refine ⟨?_, List.sorted_insertionSort _ _, hnodup, hmem, ?_⟩
  · exact List.eq_of_perm_of_sorted
      (((List.perm_insertionSort _ l.dedup).trans h.dedup).trans
        (List.perm_insertionSort _ l'.dedup).symm)
      (List.sorted_insertionSort _ _) (List.sorted_insertionSort _ _)
  · exact fun s hs => List.count_eq_one_of_mem hnodup ((hmem s).mpr hs)

/-- Witness for `aggregate_report_spec` at a concrete arrival-order pair. -/
theorem aggregate_report_spec_witness :
    aggregate_report ["b", "a", "b"] = aggregate_report ["a", "b", "b"]
    ∧ aggregate_report ["b", "a", "b"] = ["a", "b"] :=
  ⟨(aggregate_report_spec ["b", "a", "b"] ["a", "b", "b"] (by decide)).1, by decide⟩

/-! ### Check registry (RESOURCE_CHECKS, lines 8-33) -/

/-- One entry of the `RESOURCE_CHECKS` table: display name mapped to the tuple
(boto3 client name, scope string, API call name, result key). -/
structure CheckConfig where
  name : String
  service : String
  scope : String
  api_call : String
  result_key : String
deriving DecidableEq

/-- The `RESOURCE_CHECKS` table of `aws-resource.py`, in source order. -/
def RESOURCE_CHECKS : List CheckConfig := [
  ⟨"IAM Users", "iam", "global", "list_users", "Users"⟩,
  ⟨"CloudFront (Enabled)", "cloudfront", "global", "list_distributions", "DistributionList"⟩,
  ⟨"WAFv2 ACLs (Global)", "wafv2", "global", "list_web_acls", "WebACLs"⟩,
  ⟨"EC2 Instances", "ec2", "regional", "describe_instances", "Reservations"⟩,
  ⟨"VPC", "ec2", "regional", "describe_vpcs", "Vpcs"⟩,
  ⟨"AMI", "ec2", "regional", "describe_images", "Images"⟩,
  ⟨"EBS Snapshots", "ec2", "regional", "describe_snapshots", "Snapshots"⟩,
  ⟨"EBS Volumes", "ec2", "regional", "describe_volumes", "Volumes"⟩,
  ⟨"EIP", "ec2", "regional", "describe_addresses", "Addresses"⟩,
  ⟨"AutoScalingGroups", "autoscaling", "regional", "describe_auto_scaling_groups", "AutoScalingGroups"⟩,
  ⟨"KMS Keys (Disabled CMK)", "kms", "regional", "list_keys", "Keys"⟩,
  ⟨"ELB (v1)", "elb", "regional", "describe_load_balancers", "LoadBalancerDescriptions"⟩,
  ⟨"ELB (v2)", "elbv2", "regional", "describe_load_balancers", "LoadBalancers"⟩,
  ⟨"EKS Clusters", "eks", "regional", "list_clusters", "clusters"⟩,
  ⟨"Lambda", "lambda", "regional", "list_functions", "Functions"⟩,
  ⟨"SecretManager", "secretsmanager", "regional", "list_secrets", "SecretList"⟩,
  ⟨"RDS", "rds", "regional", "describe_db_instances", "DBInstances"⟩,
  ⟨"ECS Clusters", "ecs", "regional", "list_clusters", "clusterArns"⟩,
  ⟨"ECR Repos", "ecr", "regional", "describe_repositories", "repositories"⟩,
  ⟨"CodeBuild", "codebuild", "regional", "list_projects", "projects"⟩,
  ⟨"WAFv2 ACLs (Regional)", "wafv2", "regional", "list_web_acls", "WebACLs"⟩]

/-! ### Task expansion (check_aws_account, lines 198-216) -/

/-- The fan-out loop of `check_aws_account` (lines 202-216): every registry
entry with scope `'global'` is submitted once, anchored at region
`'us-east-1'`; every entry with scope `'regional'` is submitted once per
enabled region. The returned list holds the arguments of the submitted
`check_single_service` futures. -/
def expand_tasks (checks : List CheckConfig) (enabled_regions : List String) :
    List (CheckConfig × String) :=
  checks.flatMap (fun c =>
    if c.scope = "global" then [(c, "us-east-1")]
    else if c.scope = "regional" then enabled_regions.map (fun r => (c, r))
    else [])

theorem expand_tasks_cons (c : CheckConfig) (cs : List CheckConfig)
    (regions : List String) :
    expand_tasks (c :: cs) regions
      = (if c.scope = "global" then [(c, "us-east-1")]
         else if c.scope = "regional" then regions.map (fun r => (c, r))
         else []) ++ expand_tasks cs regions := by
  simp [expand_tasks]

theorem expand_tasks_length (checks : List CheckConfig) (regions : List String) :
    (expand_tasks checks regions).length
      = (checks.filter (fun c => c.scope == "global")).length
        + (checks.filter (fun c => c.scope == "regional")).length * regions.length := by
  induction checks with
  | nil => simp [expand_tasks]
  | cons c cs ih =>
    rw [expand_tasks_cons, List.length_append, ih]
    by_cases h1 : c.scope = "global"
    · have h2 : c.scope ≠ "regional" := by rw [h1]; decide
      rw [if_pos h1,
        show List.filter (fun c => c.scope == "global") (c :: cs)
            = c :: List.filter (fun c => c.scope == "global") cs by
          simp [List.filter_cons, h1],
        show List.filter (fun c => c.scope == "regional") (c :: cs)
            = List.filter (fun c => c.scope == "regional") cs by
          simp [List.filter_cons, h2]]
      simp only [List.length_cons, List.length_nil]
      omega
    · rw [if_neg h1,
        show List.filter (fun c => c.scope == "global") (c :: cs)
            = List.filter (fun c => c.scope == "global") cs by
          simp [List.filter_cons, h1]]
      by_cases h2 : c.scope = "regional"
      · rw [if_pos h2,
          show List.filter (fun c => c.scope == "regional") (c :: cs)
              = c :: List.filter (fun c => c.scope == "regional") cs by
            simp [List.filter_cons, h2]]
        simp only [List.length_map, List.length_cons, List.length_nil, Nat.add_mul, one_mul]
        omega
      · rw [if_neg h2,
          show List.filter (fun c => c.scope == "regional") (c :: cs)
              = List.filter (fun c => c.scope == "regional") cs by
            simp [List.filter_cons, h2]]
        simp

theorem filter_name_map_regions (nm : String) (d : CheckConfig) (regions : List String) :
    (regions.map (fun r => (d, r))).filter (fun t => t.1.name == nm)
      = if d.name = nm then regions.map (fun r => (d, r)) else [] := by
  by_cases h : d.name = nm
  · rw [if_pos h, List.filter_eq_self.mpr]
    intro t ht
    rcases List.mem_map.mp ht with ⟨r, _, he⟩
    rw [← he]
    simp [h]
  · rw [if_neg h, List.filter_eq_nil_iff.mpr]
    intro t ht
    rcases List.mem_map.mp ht with ⟨r, _, he⟩
    rw [← he]
    simpa using h

theorem expand_tasks_not_mem_name (checks : List CheckConfig) (regions : List String)
    (nm : String) (h : nm ∉ checks.map CheckConfig.name) :
    (expand_tasks checks regions).filter (fun t => t.1.name == nm) = [] := by
  induction checks with
  | nil => simp [expand_tasks]
  | cons c cs ih =>
    simp only [List.map_cons, List.mem_cons, not_or] at h
    have hc : c.name ≠ nm := fun he => h.1 he.symm
    rw [expand_tasks_cons, List.filter_append, ih h.2, List.append_nil]
    by_cases h1 : c.scope = "global"
    · rw [if_pos h1]
      simp [hc]
    · rw [if_neg h1]
      by_cases h2 : c.scope = "regional"
      · rw [if_pos h2, filter_name_map_regions nm c regions, if_neg hc]
      · rw [if_neg h2]
        rfl

theorem expand_tasks_filter_name (checks : List CheckConfig) (regions : List String)
    (c : CheckConfig) (hnd : (checks.map CheckConfig.name).Nodup) (hc : c ∈ checks) :
    (expand_tasks checks regions).filter (fun t => t.1.name == c.name)
      = if c.scope = "global" then [(c, "us-east-1")]
        else if c.scope = "regional" then regions.map (fun r => (c, r))
        else [] := by
  induction checks with
  | nil => cases hc
  | cons d cs ih =>
    simp only [List.map_cons, List.nodup_cons] at hnd
    rw [expand_tasks_cons, List.filter_append]
    rcases List.mem_cons.mp hc with rfl | hmem
    · rw [expand_tasks_not_mem_name cs regions c.name hnd.1, List.append_nil]
      by_cases h1 : c.scope = "global"
      · rw [if_pos h1]
        simp
      · rw [if_neg h1]
        by_cases h2 : c.scope = "regional"
        · rw [if_pos h2, filter_name_map_regions c.name c regions, if_pos rfl]
        · rw [if_neg h2]
          rfl
    · have hd : d.name ≠ c.name := fun he =>
        hnd.1 (he ▸ List.mem_map.mpr ⟨c, hmem, rfl⟩)
      rw [ih hnd.2 hmem]
      by_cases h1 : d.scope = "global"
      · rw [if_pos h1]
        simp [hd]
      · rw [if_neg h1]
        by_cases h2 : d.scope = "regional"
        · rw [if_pos h2, filter_name_map_regions c.name d regions, if_neg hd,
            List.nil_append]
        · rw [if_neg h2]
          simp

/-- C1: task expansion creates exactly one task (anchored at `'us-east-1'`) for
each registry entry with global scope regardless of the enabled regions, and
exactly one task per enabled region for each entry with regional scope; the
total task count is |global entries| + |regional entries| * |enabled regions|. -/
theorem expand_tasks_spec (checks : List CheckConfig) (regions : List String)
    (hnd : (checks.map CheckConfig.name).Nodup) :
    (expand_tasks checks regions).length
      = (checks.filter (fun c => c.scope == "global")).length
        + (checks.filter (fun c => c.scope == "regional")).length * regions.length
    ∧ (∀ c ∈ checks, c.scope = "global" →
        (expand_tasks checks regions).filter (fun t => t.1.name == c.name)
          = [(c, "us-east-1")])
    ∧ (∀ c ∈ checks, c.scope = "regional" →
        (expand_tasks checks regions).filter (fun t => t.1.name == c.name)
          = regions.map (fun r => (c, r)))
    ∧ (∀ t ∈ expand_tasks checks regions, t.1.scope = "global" → t.2 = "us-east-1") := by
  refine ⟨expand_tasks_length checks regions, ?_, ?_, ?_⟩
  · intro c hc hg
    rw [expand_tasks_filter_name checks regions c hnd hc, if_pos hg]
  · intro c hc hr
    have hg : ¬ c.scope = "global" := by rw [hr]; decide
    rw [expand_tasks_filter_name checks regions c hnd hc, if_neg hg, if_pos hr]
  · intro t ht hg
    rcases List.mem_flatMap.mp ht with ⟨c, _, hin⟩
    by_cases h1 : c.scope = "global"
    · rw [if_pos h1] at hin
      rcases List.mem_singleton.mp hin with rfl
      rfl
    · rw [if_neg h1] at hin
      by_cases h2 : c.scope = "regional"
      · rw [if_pos h2] at hin
        rcases List.mem_map.mp hin with ⟨r, _, he⟩
        rw [← he] at hg
        exact absurd hg h1
      · rw [if_neg h2] at hin
        cases hin

/-- Witness for `expand_tasks_spec`: the real registry (3 global entries,
18 regional entries) over two enabled regions yields 3 + 18 * 2 = 39 tasks,
and the single global WAF entry expands to exactly one `us-east-1` task. -/
theorem expand_tasks_spec_witness :
    (expand_tasks RESOURCE_CHECKS ["ap-northeast-2", "us-west-2"]).length = 39
    ∧ (expand_tasks RESOURCE_CHECKS ["ap-northeast-2", "us-west-2"]).filter
        (fun t => t.1.name == "WAFv2 ACLs (Global)")
        = [(⟨"WAFv2 ACLs (Global)", "wafv2", "global", "list_web_acls", "WebACLs"⟩,
            "us-east-1")] := by
  have h := expand_tasks_spec RESOURCE_CHECKS ["ap-northeast-2", "us-west-2"] (by decide)
  refine ⟨h.1.trans (by decide), ?_⟩
  have h2 := h.2.1 ⟨"WAFv2 ACLs (Global)", "wafv2", "global", "list_web_acls", "WebACLs"⟩
    (by decide) rfl
  simpa using h2

/-! ### Task-level error handling (check_single_service lines 44 and 132-137,
check_aws_account lines 219-226) -/

/-- The kinds of Python exceptions a task body can raise: `botocore`'s
`ClientError` (a provider-reported error: permission denied, region or service
not enabled, throttling), `BotoCoreError` (any other botocore-level failure),
or an arbitrary unexpected exception. -/
inductive PyErr
  | clientError
  | botoCoreError
  | otherError
deriving DecidableEq

/-- The `try`/`except (ClientError, BotoCoreError)` wrapper of
`check_single_service` (lines 44, 132-137): the body either returns an
optional warning string or raises; `ClientError` and `BotoCoreError` are
swallowed and turned into `None` (no finding), while any other exception
propagates out of the task. -/
def check_single_service_wrap (body : Except PyErr (Option String)) :
    Except PyErr (Option String) :=
  match body with
  | .ok r => .ok r
  | .error .clientError => .ok none
  | .error .botoCoreError => .ok none
  | .error .otherError => .error .otherError

/-- One step of the `as_completed` collection loop in `check_aws_account`
(lines 219-226): a returned warning is appended to `warnings_found`, `None` is
dropped, and an exception raised out of `future.result()` is caught and
printed as a diagnostic (counted here) without stopping the loop. -/
def collect_step (acc : List String × Nat) (r : Except PyErr (Option String)) :
    List String × Nat :=
  match r with
  | .ok (some s) => (acc.1 ++ [s], acc.2)
  | .ok none => acc
  | .error _ => (acc.1, acc.2 + 1)

/-- The full `as_completed` collection loop: fold `collect_step` over the task
results in arrival order, starting from no warnings and no diagnostics. -/
def collect_results (rs : List (Except PyErr (Option String))) : List String × Nat :=
  rs.foldl collect_step ([], 0)

/-- The warning that a completed task contributes, if any. -/
def extract_finding : Except PyErr (Option String) → Option String
  | .ok (some s) => some s
  | .ok none => none
  | .error _ => none

/-- Whether a task result raises out of `future.result()` (diagnostic path). -/
def raises : Except PyErr (Option String) → Bool
  | .error _ => true
  | .ok _ => false

theorem collect_results_go (rs : List (Except PyErr (Option String)))
    (acc : List String × Nat) :
    rs.foldl collect_step acc
      = (acc.1 ++ rs.filterMap extract_finding, acc.2 + rs.countP raises) := by
  induction rs generalizing acc with
  | nil => simp
  | cons r rs ih =>
    rw [List.foldl_cons, ih]
    match r with
    | .ok (some s) => simp [collect_step, extract_finding, List.countP_cons, raises]
    | .ok none => simp [collect_step, extract_finding, List.countP_cons, raises]
    | .error e => simp [collect_step, extract_finding, List.countP_cons, raises, Nat.add_comm, Nat.add_assoc, Nat.add_left_comm]

theorem collect_results_eq (rs : List (Except PyErr (Option String))) :
    collect_results rs = (rs.filterMap extract_finding, rs.countP raises) := by
  rw [collect_results, collect_results_go]
  simp

/-- The report one account's scan prints, as a function of the bodies of its
tasks: each body is run under the `check_single_service` exception wrapper,
results are collected by the `as_completed` loop, and the warnings are
deduplicated and sorted (lines 231-235). -/
def account_scan_report (bodies : List (Except PyErr (Option String))) : List String :=
  aggregate_report (collect_results (bodies.map check_single_service_wrap)).1

theorem extract_finding_wrap (r : Except PyErr (Option String)) (s : String) :
    extract_finding (check_single_service_wrap r) = some s ↔ r = .ok (some s) := by
  match r with
  | .ok (some t) => simp [check_single_service_wrap, extract_finding]
  | .ok none => simp [check_single_service_wrap, extract_finding]
  | .error .clientError => simp [check_single_service_wrap, extract_finding]
  | .error .botoCoreError => simp [check_single_service_wrap, extract_finding]
  | .error .otherError => simp [check_single_service_wrap, extract_finding]

theorem extract_finding_wrap_err (e : PyErr) :
    extract_finding (check_single_service_wrap (.error e)) = none := by
  cases e <;> rfl

/-- C3: a provider-level error (`ClientError` or `BotoCoreError`) raised by a
task's API call makes the task yield no finding; any other unexpected error is
surfaced as one diagnostic line; in both cases every sibling task's finding
still appears in the account's final report and the scan is not aborted. -/
theorem task_error_isolation (l1 l2 : List (Except PyErr (Option String)))
    (e : PyErr) (s : String) :
    check_single_service_wrap (.error .clientError) = .ok none
    ∧ check_single_service_wrap (.error .botoCoreError) = .ok none
    ∧ (collect_results ((l1 ++ .error .clientError :: l2).map check_single_service_wrap)).2
        = (collect_results ((l1 ++ l2).map check_single_service_wrap)).2
    ∧ (collect_results ((l1 ++ .error .otherError :: l2).map check_single_service_wrap)).2
        = (collect_results ((l1 ++ l2).map check_single_service_wrap)).2 + 1
    ∧ account_scan_report (l1 ++ .error e :: l2) = account_scan_report (l1 ++ l2)
    ∧ (s ∈ account_scan_report (l1 ++ .error e :: l2) ↔ .ok (some s) ∈ l1 ++ l2) := by
  have hwarn : ∀ e' : PyErr,
      ((l1 ++ .error e' :: l2).map check_single_service_wrap).filterMap extract_finding
        = ((l1 ++ l2).map check_single_service_wrap).filterMap extract_finding := by
    intro e'
    simp only [List.map_append, List.map_cons, List.filterMap_append, List.filterMap_cons,
      extract_finding_wrap_err]
  refine ⟨rfl, rfl, ?_, ?_, ?_, ?_⟩
  · rw [collect_results_eq, collect_results_eq]
    simp [List.countP_append, List.countP_cons, raises, check_single_service_wrap]
  · rw [collect_results_eq, collect_results_eq]
    simp only [List.map_append, List.map_cons, List.countP_append, List.countP_cons]
    simp [raises, check_single_service_wrap]
    omega
  · rw [account_scan_report, account_scan_report, collect_results_eq, collect_results_eq,
      hwarn e]
  · rw [account_scan_report, collect_results_eq, hwarn e]
    rw [aggregate_report_mem
      (((l1 ++ l2).map check_single_service_wrap).filterMap extract_finding) s]
    constructor
    · intro hs
      rcases List.mem_filterMap.mp hs with ⟨r, hr, he⟩
      rcases List.mem_map.mp hr with ⟨b, hb, rfl⟩
      exact ((extract_finding_wrap b s).mp he) ▸ hb
    · intro hs
      exact List.mem_filterMap.mpr ⟨check_single_service_wrap (.ok (some s)),
        List.mem_map.mpr ⟨.ok (some s), hs, rfl⟩, rfl⟩

/-! ### KMS disabled-CMK branch (check_single_service, lines 63-79) -/

/-- Outcome of one modelled provider API call: a returned value or a raised
exception. -/
inductive PyResult (α : Type)
  | ok (a : α)
  | err (e : PyErr)
deriving DecidableEq

/-- The fields of `KeyMetadata` the KMS branch reads, each via `.get` (hence
optional). -/
structure KeyMetadata where
  keyManager : Option String
  keyState : Option String
deriving DecidableEq

/-- One iteration of the per-key loop of the KMS branch (lines 68-76), as a
function of the `describe_key` outcome for the key and of the processing of
the remaining keys: a `ClientError` from `describe_key` is caught by the inner
`except ClientError: pass` and skips just this key; any other exception
propagates out of the loop; the key is prepended to the collected list when
its metadata reports `KeyManager == 'CUSTOMER'` and `KeyState == 'Disabled'`. -/
def kms_step (k : String) (dk : PyResult KeyMetadata)
    (rest : Except PyErr (List String)) : Except PyErr (List String) :=
  match dk, rest with
  | .ok m, .ok rest =>
      if m.keyManager = some "CUSTOMER" ∧ m.keyState = some "Disabled"
      then .ok (k :: rest) else .ok rest
  | .ok _, .error e => .error e
  | .err .clientError, rest => rest
  | .err .botoCoreError, _ => .error .botoCoreError
  | .err .otherError, _ => .error .otherError

/-- The per-key loop of the KMS branch (lines 67-76) over the whole key
listing. -/
def kms_collect : List String → (String → PyResult KeyMetadata) →
    Except PyErr (List String)
  | [], _ => .ok []
  | k :: ks, describe => kms_step k (describe k) (kms_collect ks describe)

theorem kms_step_client (k : String) (rest : Except PyErr (List String)) :
    kms_step k (.err .clientError) rest = rest := by
  cases rest <;> rfl

theorem kms_step_boto (k : String) (rest : Except PyErr (List String)) :
    kms_step k (.err .botoCoreError) rest = .error .botoCoreError := by
  cases rest <;> rfl

theorem kms_step_other (k : String) (rest : Except PyErr (List String)) :
    kms_step k (.err .otherError) rest = .error .otherError := by
  cases rest <;> rfl

/-- The KMS branch of `check_single_service` (lines 63-79): list the keys,
collect the disabled customer-managed ones, and report a finding only when at
least one was collected. -/
def check_single_service_kms (keys : List String)
    (describe : String → PyResult KeyMetadata) (region : String) :
    Except PyErr (Option String) :=
  match kms_collect keys describe with
  | .ok disabled_customer_keys =>
      .ok (if disabled_customer_keys.isEmpty then none
           else some ("KMS Keys (Disabled CMK) 리소스 "
             ++ toString disabled_customer_keys.length ++ "개 발견 (리전: " ++ region ++ ")"))
  | .error e => .error e

theorem kms_collect_ok (keys : List String) (describe : String → PyResult KeyMetadata)
    (h : ∀ k ∈ keys, ∀ e, describe k = .err e → e = .clientError) :
    ∃ l, kms_collect keys describe = .ok l
      ∧ ∀ x, x ∈ l ↔ x ∈ keys ∧ ∃ m, describe x = .ok m
          ∧ m.keyManager = some "CUSTOMER" ∧ m.keyState = some "Disabled" := by
  induction keys with
  | nil => exact ⟨[], rfl, by simp⟩
  | cons k ks ih =>
    have hk := h k (List.mem_cons_self k ks)
    have hks : ∀ k' ∈ ks, ∀ e, describe k' = .err e → e = .clientError :=
      fun k' hk' => h k' (List.mem_cons_of_mem k hk')
    rcases ih hks with ⟨l, hl, hiff⟩
    have hcons : kms_collect (k :: ks) describe
        = kms_step k (describe k) (kms_collect ks describe) := rfl
    match hdk : describe k with
    | .ok m =>
      rw [hcons, hdk, hl]
      have hred : kms_step k (.ok m) (.ok l)
          = if m.keyManager = some "CUSTOMER" ∧ m.keyState = some "Disabled"
            then .ok (k :: l) else .ok l := rfl
      by_cases hpred : m.keyManager = some "CUSTOMER" ∧ m.keyState = some "Disabled"
      · rw [hred, if_pos hpred]
        refine ⟨k :: l, rfl, ?_⟩
        intro x
        rw [List.mem_cons, hiff x, List.mem_cons]
        constructor
        · rintro (rfl | ⟨hxks, hm⟩)
          · exact ⟨Or.inl rfl, m, hdk, hpred.1, hpred.2⟩
          · exact ⟨Or.inr hxks, hm⟩
        · rintro ⟨rfl | hxks, hm⟩
          · exact Or.inl rfl
          · exact Or.inr ⟨hxks, hm⟩
      · rw [hred, if_neg hpred]
        refine ⟨l, rfl, ?_⟩
        intro x
        rw [hiff x, List.mem_cons]
        constructor
        · rintro ⟨hxks, hm⟩
          exact ⟨Or.inr hxks, hm⟩
        · rintro ⟨rfl | hxks, hm⟩
          · rcases hm with ⟨m', hm', hmgr, hst⟩
            rw [hdk] at hm'
            rcases PyResult.ok.inj hm' with rfl
            exact absurd ⟨hmgr, hst⟩ hpred
          · exact ⟨hxks, hm⟩
    | .err e =>
      have he : e = .clientError := hk e hdk
      subst he
      rw [hcons, hdk, kms_step_client, hl]
      refine ⟨l, rfl, ?_⟩
      intro x
      rw [hiff x, List.mem_cons]
      constructor
      · rintro ⟨hxks, hm⟩
        exact ⟨Or.inr hxks, hm⟩
      · rintro ⟨rfl | hxks, hm⟩
        · rcases hm with ⟨m', hm', _, _⟩
          rw [hdk] at hm'
          cases hm'
        · exact ⟨hxks, hm⟩

/-- C4: the managed-key filter counts a key if and only if its metadata
reports `KeyManager = CUSTOMER` and `KeyState` exactly `Disabled`; a key whose
state is `PendingDeletion` is never counted. -/
theorem kms_filter_spec (keys : List String) (describe : String → PyResult KeyMetadata)
    (h : ∀ k ∈ keys, ∀ e, describe k = .err e → e = .clientError) :
    ∃ l, kms_collect keys describe = .ok l
      ∧ (∀ x, x ∈ l ↔ x ∈ keys ∧ ∃ m, describe x = .ok m
          ∧ m.keyManager = some "CUSTOMER" ∧ m.keyState = some "Disabled")
      ∧ (∀ k ∈ keys, ∀ m, describe k = .ok m →
          m.keyState = some "PendingDeletion" → k ∉ l) := by
  rcases kms_collect_ok keys describe h with ⟨l, hl, hiff⟩
  refine ⟨l, hl, hiff, ?_⟩
  intro k _ m hm hpd hkl
  rcases (hiff k).mp hkl with ⟨_, m', hm', _, hst⟩
  rw [hm] at hm'
  rcases PyResult.ok.inj hm' with rfl
  rw [hpd] at hst
  exact absurd hst (by decide)

/-- Concrete key listing used by the KMS witnesses. -/
def kmsKeys0 : List String := ["k1", "k2", "k3"]

/-- Concrete `describe_key` behavior used by the C4 witness: `k1` is a
disabled customer key, `k2` is a customer key pending deletion, `k3` is an
AWS-managed disabled key. -/
def kmsDescribe0 (k : String) : PyResult KeyMetadata :=
  if k = "k1" then .ok ⟨some "CUSTOMER", some "Disabled"⟩
  else if k = "k2" then .ok ⟨some "CUSTOMER", some "PendingDeletion"⟩
  else .ok ⟨some "AWS", some "Disabled"⟩

/-- Witness for `kms_filter_spec`: on `kmsKeys0`/`kmsDescribe0` the collected
list contains `k1` but not the pending-deletion key `k2` nor the AWS-managed
`k3`. -/
theorem kms_filter_spec_witness :
    ∃ l, kms_collect kmsKeys0 kmsDescribe0 = .ok l
      ∧ "k1" ∈ l ∧ "k2" ∉ l ∧ "k3" ∉ l := by
  have hnoerr : ∀ k ∈ kmsKeys0, ∀ e, kmsDescribe0 k = .err e → e = .clientError := by
    intro k hk e he
    fin_cases hk <;> simp [kmsDescribe0] at he
  rcases kms_filter_spec kmsKeys0 kmsDescribe0 hnoerr with ⟨l, hl, hiff, hpd⟩
  refine ⟨l, hl, ?_, ?_, ?_⟩
  · exact (hiff "k1").mpr ⟨by decide,
      ⟨some "CUSTOMER", some "Disabled"⟩, by decide, rfl, rfl⟩
  · exact hpd "k2" (by decide) ⟨some "CUSTOMER", some "PendingDeletion"⟩ (by decide) rfl
  · intro hk3
    rcases (hiff "k3").mp hk3 with ⟨_, m', hm', hmgr, _⟩
    have : kmsDescribe0 "k3" = .ok ⟨some "AWS", some "Disabled"⟩ := by decide
    rw [this] at hm'
    rcases PyResult.ok.inj hm' with rfl
    exact absurd hmgr (by decide)

/-- C5: a `ClientError` raised by the per-key metadata lookup excludes only
that key: the collected list is the one obtained without the failing key, and
when every other lookup succeeds or fails with `ClientError` the task still
completes with a finding list (it does not fail as a whole). -/
theorem kms_per_key_error_isolation (ks1 ks2 : List String) (k : String)
    (describe : String → PyResult KeyMetadata)
    (hk : describe k = .err .clientError) :
    kms_collect (ks1 ++ k :: ks2) describe = kms_collect (ks1 ++ ks2) describe
    ∧ ((∀ x ∈ ks1 ++ ks2, ∀ e, describe x = .err e → e = .clientError) →
        ∃ l, kms_collect (ks1 ++ k :: ks2) describe = .ok l) := by
  have heq : kms_collect (ks1 ++ k :: ks2) describe
      = kms_collect (ks1 ++ ks2) describe := by
    induction ks1 with
    | nil =>
      show kms_step k (describe k) (kms_collect ks2 describe) = kms_collect ks2 describe
      rw [hk, kms_step_client]
    | cons a as ih =>
      show kms_step a (describe a) (kms_collect (as ++ k :: ks2) describe)
        = kms_step a (describe a) (kms_collect (as ++ ks2) describe)
      rw [ih]
  refine ⟨heq, fun hall => ?_⟩
  rcases kms_collect_ok (ks1 ++ ks2) describe hall with ⟨l, hl, _⟩
  exact ⟨l, heq.trans hl⟩

/-- Concrete `describe_key` behavior used by the C5 witness: the lookup for
`kbad` raises `ClientError`, every other key is a disabled customer key. -/
def kmsDescribe1 (k : String) : PyResult KeyMetadata :=
  if k = "kbad" then .err .clientError
  else .ok ⟨some "CUSTOMER", some "Disabled"⟩

/-- Witness for `kms_per_key_error_isolation` on a concrete three-key listing
whose middle lookup raises `ClientError`. -/
theorem kms_per_key_error_isolation_witness :
    kms_collect (["a"] ++ "kbad" :: ["b"]) kmsDescribe1
      = kms_collect (["a"] ++ ["b"]) kmsDescribe1
    ∧ ∃ l, kms_collect (["a"] ++ "kbad" :: ["b"]) kmsDescribe1 = .ok l := by
  have h := kms_per_key_error_isolation ["a"] ["b"] "kbad" kmsDescribe1 (by decide)
  refine ⟨h.1, h.2 ?_⟩
  intro x hx e he
  fin_cases hx <;> simp [kmsDescribe1] at he

/-! ### IAM users branch (check_single_service, lines 48-53) -/

/-- Python substring containment `pat in hay`, over the character lists. -/
def pyContains (hay pat : String) : Bool :=
  (List.range (hay.toList.length + 1)).any (fun i => pat.toList.isPrefixOf (hay.toList.drop i))

/-- One entry of the `Users` listing, with the two fields the branch reads:
`u.get('Arn', '')` and `u['UserName']`. -/
structure IamUser where
  arn : String
  userName : String
deriving DecidableEq

/-- The IAM branch of `check_single_service` (lines 48-53): keep the users
whose Arn does not contain `'AWSServiceRole'`; when any remain, report their
count and the comma-joined user names. -/
def check_single_service_iam (users : List IamUser) : Option String :=
  if (users.filter (fun u => !(pyContains u.arn "AWSServiceRole"))).isEmpty then none
  else some ("IAM 사용자 "
    ++ toString (users.filter (fun u => !(pyContains u.arn "AWSServiceRole"))).length
    ++ "명 발견: "
    ++ String.intercalate ", "
      ((users.filter (fun u => !(pyContains u.arn "AWSServiceRole"))).map IamUser.userName))

theorem length_filter_not {α : Type} (p : α → Bool) (l : List α) :
    (l.filter (fun u => !(p u))).length + l.countP p = l.length := by
  induction l with
  | nil => rfl
  | cons a t ih =>
    cases hp : p a
    · simp only [List.filter_cons, List.countP_cons, hp, Bool.not_false, if_true,
        List.length_cons]
      simp
      omega
    · simp only [List.filter_cons, List.countP_cons, hp, Bool.not_true, if_false,
        List.length_cons]
      simp
      omega

/-- C6: the identity-user filter drops every entry whose identifier marks it
as service-linked; on a listing of 3 users of which exactly 1 is
service-linked, the finding reports count 2 and its detail names exactly the
2 remaining users. -/
theorem iam_filter_spec (users : List IamUser)
    (hc : users.countP (fun u => pyContains u.arn "AWSServiceRole") = 1)
    (hlen : users.length = 3) :
    (users.filter (fun u => !(pyContains u.arn "AWSServiceRole"))).length = 2
    ∧ (∀ u ∈ users.filter (fun u => !(pyContains u.arn "AWSServiceRole")),
        pyContains u.arn "AWSServiceRole" = false)
    ∧ check_single_service_iam users
        = some ("IAM 사용자 " ++ toString 2 ++ "명 발견: "
            ++ String.intercalate ", "
              ((users.filter (fun u => !(pyContains u.arn "AWSServiceRole"))).map
                IamUser.userName)) := by
  have hn : (users.filter (fun u => !(pyContains u.arn "AWSServiceRole"))).length = 2 := by
    have key := length_filter_not (fun u => pyContains u.arn "AWSServiceRole") users
    omega
  have hne : (users.filter (fun u => !(pyContains u.arn "AWSServiceRole"))).isEmpty
      = false := by
    cases hfl : users.filter (fun u => !(pyContains u.arn "AWSServiceRole")) with
    | nil => rw [hfl] at hn; simp at hn
    | cons a t => rfl
  refine ⟨hn, ?_, ?_⟩
  · intro u hu
    have := (List.mem_filter.mp hu).2
    cases hcon : pyContains u.arn "AWSServiceRole"
    · rfl
    · rw [hcon] at this; cases this
  · rw [check_single_service_iam, if_neg (by rw [hne]; exact Bool.false_ne_true), hn]

/-- Concrete `Users` listing for the C6 witness: `alice` and `bob` are normal
users, the middle entry is a service-linked role. -/
def iamUsers0 : List IamUser := [
  ⟨"arn:aws:iam::123456789012:user/alice", "alice"⟩,
  ⟨"arn:aws:iam::123456789012:role/aws-service-role/AWSServiceRoleForSupport",
    "AWSServiceRoleForSupport"⟩,
  ⟨"arn:aws:iam::123456789012:user/bob", "bob"⟩]

/-- Witness for `iam_filter_spec` on `iamUsers0`. -/
theorem iam_filter_spec_witness :
    check_single_service_iam iamUsers0 = some "IAM 사용자 2명 발견: alice, bob" := by
  have h := (iam_filter_spec iamUsers0 (by decide) (by decide)).2.2
  rw [h]
  decide

/-! ### EC2 instances branch (check_single_service, lines 118-123) -/

/-- One EC2 instance as the state filter sees it. -/
structure Ec2Instance where
  stateName : String
deriving DecidableEq

/-- One entry of the response's `Reservations` list: a launch group holding
one or more instances. -/
structure Reservation where
  instances : List Ec2Instance
deriving DecidableEq

/-- The `instance-state-name` filter values of lines 119-121. -/
def ec2_instance_states : List String := ["pending", "running", "stopping", "stopped"]

/-- Models the provider side of `describe_instances` under the
`instance-state-name` filter: the response's `Reservations` are the launch
groups that contain at least one instance in a requested state, each
restricted to its matching instances (per the provider's documented
`describe_instances` semantics; the script itself never opens the groups). -/
def describe_instances_filtered (reservations : List Reservation) : List Reservation :=
  (reservations.map (fun r =>
    ⟨r.instances.filter (fun i => ec2_instance_states.contains i.stateName)⟩)).filter
    (fun r => !r.instances.isEmpty)

/-- The EC2 branch of `check_single_service` (lines 118-123): call
`describe_instances` with the state filter and, when the response's
`Reservations` list is truthy, report `len(response['Reservations'])` — the
number of reservations — as the count. -/
def check_single_service_ec2 (reservations : List Reservation) (region : String) :
    Option String :=
  if (describe_instances_filtered reservations).isEmpty then none
  else some ("EC2 Instances 리소스 "
    ++ toString (describe_instances_filtered reservations).length
    ++ "개 발견 (리전: " ++ region ++ ")")

/-- C8: the listing restriction to pending/running/stopping/stopped holds (a
terminated instance is dropped), and a region with no instances yields no
finding; but the reported count is the number of reservations, not of
instances: a single reservation holding 2 running instances is reported with
count 1, refuting "the count it reports equals the number of such
instances". -/
theorem ec2_count_reservations_not_instances :
    (∀ r ∈ describe_instances_filtered [⟨[⟨"running"⟩, ⟨"running"⟩]⟩],
        ∀ i ∈ r.instances, i.stateName ∈ ec2_instance_states)
    ∧ describe_instances_filtered [⟨[⟨"terminated"⟩]⟩] = []
    ∧ ((describe_instances_filtered [⟨[⟨"running"⟩, ⟨"running"⟩]⟩]).map
        (fun r => r.instances.length)).sum = 2
    ∧ check_single_service_ec2 [⟨[⟨"running"⟩, ⟨"running"⟩]⟩] "r1"
        = some "EC2 Instances 리소스 1개 발견 (리전: r1)"
    ∧ check_single_service_ec2 [] "r2" = none := by
  exact ⟨by decide, by decide, by decide, by decide, rfl⟩

/-! ### Region discovery and per-account orchestration
(get_enabled_regions lines 160-171, check_aws_account lines 173-239,
main lines 242-255) -/

/-- Outcome of the `describe_regions` call made by `get_enabled_regions`:
either the opted-in/opt-in-not-required region names, or a `ClientError`
(invalid credentials, missing `ec2:DescribeRegions` permission, ...) — the
one exception kind its `except` clause handles. -/
inductive DiscoveryOutcome
  | ok (regions : List String)
  | clientError
deriving DecidableEq

/-- Model of `get_enabled_regions` (lines 160-171): the region-name list on success;
on `ClientError` it prints the two error lines (the `Bool` component) and
returns `None`. -/
def get_enabled_regions (o : DiscoveryOutcome) : Option (List String) × Bool :=
  match o with
  | .ok regions => (some regions, false)
  | .clientError => (none, true)

/-- Result of one account's scan. -/
inductive ScanResult
  | aborted
  | report (findings : List String)
deriving DecidableEq

/-- Model of `check_aws_account` (lines 173-239), parameterized by the discovery
outcome and by the bodies of the tasks the fan-out would submit for a given
region set: when `if not enabled_regions` holds (discovery returned `None`, or
the region list is empty) the scan stops before the thread pool is entered and
dispatches no task; otherwise all task bodies run and the report is
aggregated. The second component counts the dispatched tasks. -/
def check_aws_account (o : DiscoveryOutcome)
    (tasks : List String → List (Except PyErr (Option String))) : ScanResult × Nat :=
  match (get_enabled_regions o).1 with
  | none => (.aborted, 0)
  | some enabled_regions =>
      if enabled_regions.isEmpty then (.aborted, 0)
      else (.report (account_scan_report (tasks enabled_regions)),
        (tasks enabled_regions).length)

/-- The sequential per-account loop of `main` (lines 254-255). -/
def run_all_accounts
    (accounts : List (DiscoveryOutcome ×
      (List String → List (Except PyErr (Option String))))) : List (ScanResult × Nat) :=
  accounts.map (fun a => check_aws_account a.1 a.2)

/-- C7: when region discovery fails with a provider error, the failure is
reported, that account's scan is aborted with zero tasks dispatched, and every
other account in the run is still scanned with its own result — the failure is
confined to the one account and never fatal to the process. -/
theorem region_discovery_failure_spec
    (as1 as2 : List (DiscoveryOutcome ×
      (List String → List (Except PyErr (Option String)))))
    (f : List String → List (Except PyErr (Option String))) :
    (get_enabled_regions .clientError).2 = true
    ∧ check_aws_account .clientError f = (.aborted, 0)
    ∧ run_all_accounts (as1 ++ (.clientError, f) :: as2)
        = run_all_accounts as1 ++ (ScanResult.aborted, 0) :: run_all_accounts as2 := by
  refine ⟨rfl, rfl, ?_⟩
  rw [run_all_accounts, List.map_append, List.map_cons]
  rfl

/-! ### Credential loading (parse_credentials lines 141-158, main 242-255) -/

/-- Python `str.strip()` over the character list: drop leading and trailing
whitespace. -/
def pyStrip (s : List Char) : List Char :=
  ((s.dropWhile Char.isWhitespace).reverse.dropWhile Char.isWhitespace).reverse

/-- What processing one line of `accesskey.txt` produces (lines 146-154). -/
inductive LineResult
  | skipped
  | record (access_key secret_key display_name : String)
  | malformed
deriving DecidableEq

/-- Processing of the line at 0-based `enumerate` index `i` (lines 146-154):
strip whitespace; `continue` on an empty result or one starting with `'#'`;
`line.split('\t')` with exactly two fields appends
`(access_key, secret_key, f"계정 {i+1}")`, and any other field count is the
`ValueError` path, which prints a warning for line `i+1` and skips it. -/
def parse_line (i : Nat) (raw : String) : LineResult :=
  if (pyStrip raw.toList).isEmpty then .skipped
  else if (pyStrip raw.toList).head? = some '#' then .skipped
  else match (pyStrip raw.toList).splitOn '\t' with
    | [a, b] => .record (String.mk a) (String.mk b) ("계정 " ++ toString (i + 1))
    | _ => .malformed

/-- One iteration of the credential loop: extend the accumulated records, or
count a malformed-line warning, or do nothing for a skipped line. -/
def parse_step (acc : List (String × String × String) × Nat) (p : Nat × String) :
    List (String × String × String) × Nat :=
  match parse_line p.1 p.2 with
  | .skipped => acc
  | .record a b n => (acc.1 ++ [(a, b, n)], acc.2)
  | .malformed => (acc.1, acc.2 + 1)

/-- The loop of `parse_credentials` over `enumerate(f)` (lines 146-154),
returning the credential records in file order together with the number of
malformed-line warnings printed. -/
def parse_credentials_lines (lines : List String) :
    List (String × String × String) × Nat :=
  lines.enum.foldl parse_step ([], 0)

/-- The record one enumerated line contributes, if any. -/
def record_of (p : Nat × String) : Option (String × String × String) :=
  match parse_line p.1 p.2 with
  | .record a b n => some (a, b, n)
  | _ => none

/-- Whether an enumerated line takes the malformed-warning path. -/
def line_malformed (p : Nat × String) : Bool :=
  match parse_line p.1 p.2 with
  | .malformed => true
  | _ => false

theorem parse_lines_go (ps : List (Nat × String))
    (acc : List (String × String × String) × Nat) :
    ps.foldl parse_step acc
      = (acc.1 ++ ps.filterMap record_of, acc.2 + ps.countP line_malformed) := by
  induction ps generalizing acc with
  | nil => simp
  | cons p ps ih =>
    rw [List.foldl_cons, ih]
    match hp : parse_line p.1 p.2 with
    | .skipped =>
      simp [parse_step, hp, record_of, line_malformed, List.countP_cons]
    | .record a b n =>
      simp [parse_step, hp, record_of, line_malformed, List.countP_cons]
    | .malformed =>
      simp [parse_step, hp, record_of, line_malformed, List.countP_cons,
        Nat.add_comm, Nat.add_assoc, Nat.add_left_comm]

theorem parse_credentials_lines_eq (lines : List String) :
    parse_credentials_lines lines
      = (lines.enum.filterMap record_of, lines.enum.countP line_malformed) := by
  rw [parse_credentials_lines, parse_lines_go]
  simp

/-- Model of `parse_credentials` (lines 141-158): a missing `accesskey.txt`
(`FileNotFoundError`) prints the error and calls `sys.exit(1)`; otherwise the
lines are processed. The file argument is `none` when the file is absent. -/
def parse_credentials (file : Option (List String)) :
    Except Nat (List (String × String × String) × Nat) :=
  match file with
  | none => .error 1
  | some lines => .ok (parse_credentials_lines lines)

/-- Model of `main` (lines 242-255) as (exit status, accounts scanned, empty-notice
printed): a missing credential file exits with status 1; an empty credential
list prints the notice and returns normally; otherwise every credential record
is scanned sequentially and the process ends with status 0. -/
def main_result (file : Option (List String)) : Nat × Nat × Bool :=
  match parse_credentials file with
  | .error code => (code, 0, false)
  | .ok (creds, _) =>
      if creds.isEmpty then (0, 0, true) else (0, creds.length, false)

/-- C9: the credential loader skips blank lines and `#` comment lines, turns a
line with exactly two tab-separated fields into a record whose display name is
the 1-based label `계정 {i+1}` of the line's position, counts (reports) any
other non-skipped line as malformed without aborting the load — the loop's
result is a total function of the lines — and exits with status 1 when the
file is absent. -/
theorem parse_credentials_spec (lines : List String) (i : Nat) (raw : String)
    (a b : List Char) :
    ((pyStrip raw.toList).isEmpty = true ∨ (pyStrip raw.toList).head? = some '#' →
        parse_line i raw = .skipped)
    ∧ ((pyStrip raw.toList).isEmpty = false → (pyStrip raw.toList).head? ≠ some '#' →
        (pyStrip raw.toList).splitOn '\t' = [a, b] →
        parse_line i raw
          = .record (String.mk a) (String.mk b) ("계정 " ++ toString (i + 1)))
    ∧ ((pyStrip raw.toList).isEmpty = false → (pyStrip raw.toList).head? ≠ some '#' →
        (∀ x y, (pyStrip raw.toList).splitOn '\t' ≠ [x, y]) →
        parse_line i raw = .malformed)
    ∧ parse_credentials_lines lines
        = (lines.enum.filterMap record_of, lines.enum.countP line_malformed)
    ∧ parse_credentials none = .error 1 := by
  refine ⟨?_, ?_, ?_, parse_credentials_lines_eq lines, rfl⟩
  · intro h
    rcases h with h | h
    · unfold parse_line
      rw [if_pos h]
    · by_cases he : (pyStrip raw.toList).isEmpty
      · unfold parse_line
        rw [if_pos he]
      · unfold parse_line
        rw [if_neg he, if_pos h]
  · intro h1 h2 h3
    unfold parse_line
    rw [if_neg (by rw [h1]; exact Bool.false_ne_true), if_neg h2, h3]
  · intro h1 h2 h3
    cases hs : (pyStrip raw.toList).splitOn '\t' with
    | nil =>
      unfold parse_line
      rw [if_neg (by rw [h1]; exact Bool.false_ne_true), if_neg h2, hs]
    | cons x t =>
      cases t with
      | nil =>
        unfold parse_line
        rw [if_neg (by rw [h1]; exact Bool.false_ne_true), if_neg h2, hs]
      | cons y t2 =>
        cases t2 with
        | nil => exact absurd hs (h3 x y)
        | cons z t3 =>
          unfold parse_line
          rw [if_neg (by rw [h1]; exact Bool.false_ne_true), if_neg h2, hs]

/-- Witness for `parse_credentials_spec` on a comment line, a well-formed
line, a malformed line and the missing file. -/
theorem parse_credentials_spec_witness :
    parse_line 0 "# comment" = .skipped
    ∧ parse_line 1 "AKIA\tSECRET" = .record "AKIA" "SECRET" "계정 2"
    ∧ parse_line 2 "bad line" = .malformed
    ∧ parse_credentials none = .error 1 := by
  have h1 := (parse_credentials_spec [] 0 "# comment" [] []).1
  have h2 := (parse_credentials_spec [] 1 "AKIA\tSECRET"
    "AKIA".toList "SECRET".toList).2.1
  have h3 := (parse_credentials_spec [] 2 "bad line" [] []).2.2.1
  have h4 := (parse_credentials_spec [] 0 "" [] []).2.2.2.2
  refine ⟨h1 (by decide), ?_, h3 (by decide) (by decide) ?_, h4⟩
  · rw [h2 (by decide) (by decide) (by decide)]
    decide
  · intro x y hxy
    have hbad : (pyStrip "bad line".toList).splitOn '\t' = ["bad line".toList] := by
      decide
    rw [hbad] at hxy
    simp at hxy

/-- C10: a credential file that exists but yields zero valid records makes the
process print the notice and terminate normally with exit status 0 scanning no
account; for an existing file the exit status is always 0, and only the
missing file exits non-zero (status 1). -/
theorem empty_credentials_spec (lines : List String)
    (h : (parse_credentials_lines lines).1 = []) :
    main_result (some lines) = (0, 0, true)
    ∧ main_result none = (1, 0, false)
    ∧ (∀ ls : List String, (main_result (some ls)).1 = 0) := by
  refine ⟨?_, rfl, ?_⟩
  · rw [main_result, parse_credentials]
    have : parse_credentials_lines lines
        = ([], (parse_credentials_lines lines).2) := by
      rw [← h]
    rw [this]
    rfl
  · intro ls
    rw [main_result, parse_credentials]
    cases hp : parse_credentials_lines ls with
    | mk creds w =>
      by_cases he : creds.isEmpty
      · simp [he]
      · simp [he]

/-- Witness for `empty_credentials_spec` on a file holding only a comment, a
blank line and a malformed line. -/
theorem empty_credentials_spec_witness :
    main_result (some ["# only a comment", "", "no tabs here"]) = (0, 0, true) :=
  (empty_credentials_spec ["# only a comment", "", "no tabs here"] (by decide)).1

end AwsResource
